import Mathlib

/-!
Shallow embedding of the core of the virginia-trout-map repository:
the trout-stocking web scraper (src/lib/scraper.ts and the Deno edge
function copy), its text normalizers, and the TTL cache
(src/lib/cache.ts).

Strings are modelled with Lean `String` (a list of characters); the
JavaScript string primitives used by the code (`trim`, `toLowerCase`,
`includes`, `indexOf`, `split`, `replace`) are re-implemented
structurally over `List Char` so that every definition evaluates by
kernel reduction.  JavaScript `undefined` is modelled by `Option`;
the JavaScript number `NaN` (which `parseInt` can produce) is modelled
by the inner `none` of `Option (Option Nat)`.  Wall-clock instants
(`Date.now()`) are passed explicitly as `Nat` milliseconds.
-/

/-- JavaScript-style whitespace test used by `String.prototype.trim`
(restricted to the ASCII whitespace actually occurring in HTML cell text). -/
def jsIsWs (c : Char) : Bool :=
  (c == ' ') || (c == '\t') || (c == '\n') || (c == '\r')

/-- Model of `String.prototype.trim`: drop whitespace from both ends. -/
def jsTrim (s : String) : String :=
  String.mk (((s.toList.dropWhile jsIsWs).reverse.dropWhile jsIsWs).reverse)

/-- ASCII lower-casing of one character (`String.prototype.toLowerCase`). -/
def charLower (c : Char) : Char :=
  if c.isUpper then Char.ofNat (c.toNat + 32) else c

/-- Model of `String.prototype.toLowerCase` (ASCII). -/
def jsToLower (s : String) : String :=
  String.mk (s.toList.map charLower)

/-- JavaScript `a || b` for a possibly-`undefined` string `a`:
`undefined` and the empty string are falsy. -/
def jsOrString (o : Option String) (d : String) : String :=
  match o with
  | some s => if s = "" then d else s
  | none => d

/-- JavaScript truthiness of a possibly-`undefined` string
(used by `if (startDate && ...)`). -/
def jsTruthy (o : Option String) : Bool :=
  match o with
  | some s => s != ""
  | none => false

/-- Model of `String.prototype.includes`: `pat` occurs as a contiguous substring of `s`. -/
def strContains (s pat : String) : Bool :=
  (List.range (s.length + 1)).any fun i => pat.toList.isPrefixOf (s.toList.drop i)

/-- Model of `String.prototype.indexOf` over character lists: position of the
first occurrence of `pat` in `l`, or `none` for JavaScript `-1`. -/
def strIndexOf (l pat : List Char) : Option Nat :=
  (List.range (l.length + 1)).find? fun i => pat.isPrefixOf (l.drop i)

/-- Value of a string of decimal digits (the core of `parseInt(str, 10)`
once `str` is known to consist of digits only). -/
def digitsToNat (l : List Char) : Nat :=
  l.foldl (fun acc c => acc * 10 + (c.toNat - 48)) 0

/-- Lexicographic strict comparison of character lists: the JavaScript
`<` operator on strings (code-unit order; identical to code-point order
on the basic-multilingual-plane text this scraper handles). -/
def charListLt : List Char → List Char → Bool
  | [], [] => false
  | [], _ :: _ => true
  | _ :: _, [] => false
  | a :: as, b :: bs =>
    if a < b then true
    else if b < a then false
    else charListLt as bs

/-- JavaScript `a < b` on strings. -/
def jsStrLt (a b : String) : Bool := charListLt a.toList b.toList

/-- JavaScript `a <= b` on strings (total order: not `b < a`). -/
def jsStrLe (a b : String) : Bool := !jsStrLt b a

/-- Whitespace-run collapsing, one step per character: the regex
replace of every maximal whitespace run by a single hyphen used for
event ids.  The boolean state records whether
the previous character was whitespace. -/
def collapseWsGo : Bool → List Char → List Char
  | _, [] => []
  | prevWs, c :: rest =>
    if jsIsWs c then
      if prevWs then collapseWsGo true rest
      else '-' :: collapseWsGo true rest
    else c :: collapseWsGo false rest

/-- Hyphen-collapsing regex replace on a whole string. -/
def collapseWs (s : String) : String :=
  String.mk (collapseWsGo false s.toList)

/-! ## Cache (src/lib/cache.ts)

`CacheManager` keeps a `Map<string, CacheEntry<any>>`; the map is
modelled as an association list with unique keys, `Date.now()` as an
explicit `Nat` argument, and the two timestamp-to-ISO conversions in
`getStatus` kept as raw `Nat` instants. -/

/-- Cache entry record `CacheEntry<T>` from src/lib/types.ts. -/
structure CacheEntry (α : Type) where
  data : α
  timestamp : Nat
  expiresAt : Nat
deriving DecidableEq

/-- The backing `Map<string, CacheEntry<any>>`. -/
abbrev CacheStore (α : Type) := List (String × CacheEntry α)

/-- Status record `CacheStatus` from src/lib/types.ts (`lastUpdated`/`expiresAt` kept
as millisecond instants rather than their ISO renderings). -/
structure CacheStatus where
  isCached : Bool
  lastUpdated : Option Nat := none
  expiresAt : Option Nat := none
  age : Option Nat := none
deriving DecidableEq

namespace CacheManager

/-- The private field `defaultTTL = 60 * 60 * 1000`. -/
def defaultTTL : Nat := 60 * 60 * 1000

/-- The expression `ttl || this.defaultTTL` from `set`: an omitted
(`undefined`) or zero (falsy) TTL falls back to the default. -/
def ttlOrDefault (ttl : Option Nat) : Nat :=
  match ttl with
  | some t => if t = 0 then defaultTTL else t
  | none => defaultTTL

/-- Map deletion `this.cache.delete(key)`. -/
def deleteKey (c : CacheStore α) (key : String) : CacheStore α :=
  c.filter fun p => !(p.1 == key)

/-- Method `set`: store `data` under `key` with expiration
`now + (ttl || defaultTTL)`, overwriting any existing entry. -/
def set (c : CacheStore α) (key : String) (data : α) (ttl : Option Nat)
    (now : Nat) : CacheStore α :=
  (key, CacheEntry.mk data now (now + ttlOrDefault ttl)) :: deleteKey c key

/-- Method `get`: return the stored value unless the entry is
absent or `now > expiresAt`; an expired entry is deleted as a side
effect.  The returned pair is (result, updated store). -/
def get (c : CacheStore α) (key : String) (now : Nat) :
    Option α × CacheStore α :=
  match List.lookup key c with
  | none => (none, c)
  | some entry =>
    if now > entry.expiresAt then (none, deleteKey c key)
    else (some entry.data, c)

/-- Method `getStatus`: status report with the same lazy eviction
as `get`. -/
def getStatus (c : CacheStore α) (key : String) (now : Nat) :
    CacheStatus × CacheStore α :=
  match List.lookup key c with
  | none => (CacheStatus.mk false none none none, c)
  | some entry =>
    if now > entry.expiresAt then (CacheStatus.mk false none none none, deleteKey c key)
    else
      (CacheStatus.mk true (some entry.timestamp) (some entry.expiresAt)
        (some (now - entry.timestamp)), c)

end CacheManager

/-! ## Scraper (src/lib/scraper.ts)

The HTML parser (`node-html-parser` in the Next.js build, the regex
table scanner in the Deno edge function) is an external collaborator:
a parsed document is modelled as a list of tables, each table a list of
rows, each row the list of its cells' raw text — exactly the shape both
backends feed to the shared extraction algorithm.  The date parser
(`parseDate`, a thin wrapper over the host `Date` machinery returning
an ISO string or `null`) is likewise passed as an oracle
`pd : String → Option String`. -/

namespace Scraper

/-- Event record `StockingEvent` from src/lib/types.ts.  `county` is declared
`string` in the source, but the scraper can assign JavaScript
`undefined` to it (optional-chained cell access), so the runtime field
is modelled as `Option String`.  `pounds`/`numberOfFish` are optional
numbers that can also be `NaN`: outer `none` = field absent, inner
`none` = `NaN`. -/
structure StockingEvent where
  id : String
  waterBody : String
  county : Option String
  species : String
  date : String
  pounds : Option (Option Nat) := none
  numberOfFish : Option (Option Nat) := none
deriving DecidableEq

/-- The fixed `speciesMap` of `normalizeSpecies` in src/lib/scraper.ts
(rainbow/brown/brook/golden only — this copy has no tiger entries). -/
def speciesMap : List (String × String) :=
  [("rainbow", "Rainbow Trout"), ("rainbow trout", "Rainbow Trout"),
   ("brown", "Brown Trout"), ("brown trout", "Brown Trout"),
   ("brook", "Brook Trout"), ("brook trout", "Brook Trout"),
   ("golden", "Golden Trout"), ("golden trout", "Golden Trout")]

/-- Function `normalizeSpecies` from src/lib/scraper.ts:
`speciesMap[species.trim().toLowerCase()] || species`. -/
def normalizeSpecies (species : String) : String :=
  jsOrString (List.lookup (jsToLower (jsTrim species)) speciesMap) species

/-- The character class `[\d,]` of `extractNumber`. -/
def numClass (c : Char) : Bool := c.isDigit || c == ','

/-- Leftmost maximal `[\d,]+` run (the result of `text.match(/[\d,]+/)`). -/
def firstNumRun : List Char → Option (List Char)
  | [] => none
  | c :: rest =>
    if numClass c then some (c :: rest.takeWhile numClass)
    else firstNumRun rest

/-- Function `extractNumber` from src/lib/scraper.ts: first `[\d,]+` run, commas
stripped, then parseInt base 10.  Outer `none` = no match (`undefined`);
inner `none` = parseInt of the empty string, i.e. `NaN` (an all-comma run). -/
def extractNumber (text : String) : Option (Option Nat) :=
  match firstNumRun text.toList with
  | none => none
  | some run =>
    if (run.filter fun c => !(c == ',')).isEmpty then some none
    else some (some (digitsToNat (run.filter fun c => !(c == ','))))

/-- Function `filterEventsByDateRange` from src/lib/scraper.ts: both bound
checks are guarded by JavaScript truthiness of the bound. -/
def filterEventsByDateRange (events : List StockingEvent)
    (startDate endDate : Option String) : List StockingEvent :=
  events.filter fun event =>
    if jsTruthy startDate && jsStrLt event.date (startDate.getD "") then false
    else if jsTruthy endDate && jsStrLt (endDate.getD "") event.date then false
    else true

/-- Modelled from the spec (for the refinement comparison of the
date-range filter): keep exactly the events whose date is lexically at
or after the start bound (when given) and at or before the end bound
(when given). -/
def specInRange (startDate endDate : Option String) (event : StockingEvent) : Bool :=
  (match startDate with
   | none => true
   | some sd => jsStrLe sd event.date) &&
  (match endDate with
   | none => true
   | some ed => jsStrLe event.date ed)

/-- Header keyword test for the date column. -/
def isDateHeader (h : String) : Bool :=
  strContains h "date" || strContains h "when"

/-- Header keyword test for the water-body column. -/
def isWaterHeader (h : String) : Bool :=
  strContains h "water" || strContains h "location" ||
  strContains h "stream" || strContains h "lake"

/-- Header keyword test for the county column. -/
def isCountyHeader (h : String) : Bool := strContains h "county"

/-- Header keyword test for the species column. -/
def isSpeciesHeader (h : String) : Bool :=
  strContains h "species" || strContains h "fish"

/-- Header keyword test for the pounds column. -/
def isPoundsHeader (h : String) : Bool :=
  strContains h "pound" || strContains h "lbs" || strContains h "weight"

/-- Header keyword test for the fish-count column. -/
def isNumberHeader (h : String) : Bool :=
  strContains h "number" || strContains h "count" || strContains h "qty"

/-- The `indices` record of `scrapeStockingData`, after the viability
check has resolved `date` and `waterBody` to real indices; the other
fields keep `Option Nat` for `-1`. -/
structure ColumnIndices where
  date : Nat
  waterBody : Nat
  county : Option Nat
  species : Option Nat
  pounds : Option Nat
  number : Option Nat

/-- One HTML table as both parsing backends present it: the row list,
each row its cell texts (first row = header row). -/
structure HtmlTable where
  rows : List (List String)

/-- One iteration of the data-row loop of `scrapeStockingData`
(src/lib/scraper.ts lines 119-155): `none` means the row was skipped
(`continue`), `some e` means `events.push(e)`. -/
def buildEvent (pd : String → Option String) (ix : ColumnIndices) (i : Nat)
    (cells : List String) : Option StockingEvent :=
  if cells.isEmpty then none
  else
    match (cells.get? ix.date).map jsTrim, (cells.get? ix.waterBody).map jsTrim with
    | some dateStr, some waterBody =>
      if dateStr = "" ∨ waterBody = "" then none
      else
        match pd dateStr with
        | none => none
        | some date =>
          some (StockingEvent.mk
            (jsToLower (collapseWs (waterBody ++ "-" ++ date ++ "-" ++ toString i)))
            waterBody
            (match ix.county with
             | some ci => (cells.get? ci).map jsTrim
             | none => some "Unknown")
            (match ix.species with
             | some si => normalizeSpecies (jsOrString (cells.get? si) "Unknown")
             | none => "Unknown")
            date
            (match ix.pounds with
             | some pj => match cells.get? pj with
               | some t => extractNumber t
               | none => none
             | none => none)
            (match ix.number with
             | some nj => match cells.get? nj with
               | some t => extractNumber t
               | none => none
             | none => none))
    | _, _ => none

/-- The condition under which the data-row loop skips a row: the mapped
date or water-body cell is missing or trims to empty, or the date cell
fails to parse. -/
def isBadRow (pd : String → Option String) (ix : ColumnIndices)
    (cells : List String) : Bool :=
  match (cells.get? ix.date).map jsTrim, (cells.get? ix.waterBody).map jsTrim with
  | none, _ => true
  | some _, none => true
  | some dateStr, some waterBody =>
    if dateStr = "" ∨ waterBody = "" then true
    else (pd dateStr).isNone

/-- The data-row loop `for (let i = 1; i < rows.length; i++)`:
`i` is the ordinal of the current row within the table. -/
def processRows (pd : String → Option String) (ix : ColumnIndices) :
    Nat → List (List String) → List StockingEvent
  | _, [] => []
  | i, cells :: rest =>
    match buildEvent pd ix i cells with
    | some e => e :: processRows pd ix (i + 1) rest
    | none => processRows pd ix (i + 1) rest

/-- Events contributed by one table: header-row extraction, keyword
column mapping, the `date`/`waterBody` viability check, then the
data-row loop. -/
def tableEvents (pd : String → Option String) (t : HtmlTable) : List StockingEvent :=
  match t.rows with
  | [] => []
  | headerRow :: dataRows =>
    if headerRow.isEmpty then []
    else
      let headerTexts := headerRow.map fun h => jsToLower (jsTrim h)
      match headerTexts.findIdx? isDateHeader, headerTexts.findIdx? isWaterHeader with
      | some di, some wi =>
        processRows pd
          (ColumnIndices.mk di wi (headerTexts.findIdx? isCountyHeader)
            (headerTexts.findIdx? isSpeciesHeader)
            (headerTexts.findIdx? isPoundsHeader)
            (headerTexts.findIdx? isNumberHeader)) 1 dataRows
      | _, _ => []

/-- The table loop of `scrapeStockingData` with its shared `events`
accumulator and the `if (events.length > 0) break` exit. -/
def scrapeGo (pd : String → Option String) (events : List StockingEvent) :
    List HtmlTable → List StockingEvent
  | [] => events
  | t :: rest =>
    let events2 := events ++ tableEvents pd t
    if events2.isEmpty then scrapeGo pd events2 rest else events2

/-- Function `scrapeStockingData` (HTML already fetched and parsed into its
table list): try tables in document order, stop at the first that
yields events, return `[]` when none does. -/
def scrapeStockingData (pd : String → Option String) (tables : List HtmlTable) :
    List StockingEvent :=
  scrapeGo pd [] tables

end Scraper

/-- Date-parse oracle used by concrete witnesses: recognizes the one
sample date from the spec's end-to-end scenario. -/
def sampleParseDate : String → Option String := fun s =>
  if s = "June 1, 2024" then some "2024-06-01T00:00:00.000Z" else none

/-! ## Edge-function copy (src/unnamed/part_000)

The Deno sync function carries its own near-duplicate of the
normalizer plus the multi-species parser `parseSpeciesString`. -/

namespace EdgeSync

/-- The `speciesMap` of `normalizeSpecies` in the edge function -
this copy includes the tiger entries. -/
def speciesMap : List (String × String) :=
  [("rainbow", "Rainbow Trout"), ("rainbow trout", "Rainbow Trout"),
   ("brown", "Brown Trout"), ("brown trout", "Brown Trout"),
   ("brook", "Brook Trout"), ("brook trout", "Brook Trout"),
   ("golden", "Golden Trout"), ("golden trout", "Golden Trout"),
   ("tiger", "Tiger Trout"), ("tiger trout", "Tiger Trout")]

/-- Function `normalizeSpecies` from the edge function. -/
def normalizeSpecies (species : String) : String :=
  jsOrString (List.lookup (jsToLower (jsTrim species)) speciesMap) species

/-- The list `validSpecies` from `parseSpeciesString`, in source order. -/
def validSpecies : List String :=
  ["Rainbow Trout", "Brown Trout", "Brook Trout", "Tiger Trout", "Golden Trout"]

/-- The delimiter class of `split(/[+\/,]/)`. -/
def isDelim (c : Char) : Bool := (c == '+') || (c == '/') || (c == ',')

/-- Delimiter split of the species cell over characters (pieces may be
empty), as the regex split on plus, slash and comma does. -/
def splitDelims (acc : List Char) : List Char → List (List Char)
  | [] => [acc.reverse]
  | c :: rest =>
    if isDelim c then acc.reverse :: splitDelims [] rest
    else splitDelims (c :: acc) rest

/-- The delimiter-branch loop of `parseSpeciesString`: trim each part,
normalize it, push it unless empty (falsy) or already collected. -/
def collectParts (parsed : List String) : List String → List String
  | [] => parsed
  | part :: rest =>
    let normalized := normalizeSpecies (jsTrim part)
    if !(normalized == "") && !(parsed.contains normalized) then
      collectParts (parsed ++ [normalized]) rest
    else collectParts parsed rest

/-- The concatenated-species loop of `parseSpeciesString`: for each
known species in `validSpecies` order, extract its first occurrence as
a substring, deleting the matched text from `remaining`. -/
def extractKnown (parsed : List String) (remaining : List Char) :
    List String → List String × List Char
  | [] => (parsed, remaining)
  | species :: rest =>
    match strIndexOf remaining species.toList with
    | some index =>
      extractKnown (parsed ++ [species])
        (remaining.take index ++ remaining.drop (index + species.length)) rest
    | none => extractKnown parsed remaining rest

/-- Function `parseSpeciesString` from the edge function. -/
def parseSpeciesString (speciesText : String) : List String :=
  if jsTrim speciesText = "" then []
  else
    let remaining := jsTrim speciesText
    if strContains remaining "+" || strContains remaining "/" ||
        strContains remaining "," then
      let parts := (splitDelims [] remaining.toList).map String.mk
      let parsed := collectParts [] parts
      if parsed.length > 0 then parsed else [speciesText]
    else
      let parsed := (extractKnown [] remaining.toList validSpecies).1
      if parsed.length > 0 then parsed
      else [normalizeSpecies speciesText]

/-- The species display expression of the sync loop
(the ternary that joins with a plus separator or falls back to the
literal Unknown). -/
def joinPlus : List String → String
  | [] => ""
  | [s] => s
  | s :: rest => s ++ " + " ++ joinPlus rest

/-- Display form of a parsed species list. -/
def speciesDisplay (speciesList : List String) : String :=
  if speciesList.length > 0 then joinPlus speciesList else "Unknown"

end EdgeSync

/-! ## Fetch stage of the orchestrators

The network is an oracle: `datedResult` is the outcome of the
date-ranged GET (`none` = network error or non-2xx), `plainResult` the
outcome of the plain unparameterized GET of the same URL.  Each
orchestrator's fetch stage returns the list of requests it issued, in
order, paired with the HTML it obtained (`none` = it signals failure
to its caller). -/

/-- A request kind issued against the stocking-schedule URL. -/
inductive FetchReq
  | dated
  | plain
deriving DecidableEq

/-- Outcome oracle for the two possible requests. -/
structure Net where
  datedResult : Option String
  plainResult : Option String

namespace EdgeSync

/-- Fetch stage of the edge function's date-ranged `scrapeStockingData`
(src/unnamed/part_000 lines 254-272 and the rethrowing catch): one
date-ranged GET; on failure the error propagates — no fallback request. -/
def fetchHtml (net : Net) : List FetchReq × Option String :=
  match net.datedResult with
  | some html => ([FetchReq.dated], some html)
  | none => ([FetchReq.dated], none)

end EdgeSync

namespace ScheduleTab

/-- Function `fetchStockingDataWithDateRange` (src/components/schedule/ScheduleTab.tsx):
returns the body of the date-ranged GET or throws (`none`). -/
def fetchStockingDataWithDateRange (net : Net) : Option String :=
  net.datedResult

/-- Fetch stage of the ScheduleTab `scrapeStockingData`: try the
date-ranged request; on any failure fall back once to a plain GET of
the schedule URL, and fail only if that also fails. -/
def fetchHtml (net : Net) : List FetchReq × Option String :=
  match fetchStockingDataWithDateRange net with
  | some html => ([FetchReq.dated], some html)
  | none =>
    match net.plainResult with
    | some html => ([FetchReq.dated, FetchReq.plain], some html)
    | none => ([FetchReq.dated, FetchReq.plain], none)

end ScheduleTab

/-! ## Theorems -/

-- Looking up a key in a store from which that key was just filtered out
-- always misses.
theorem lookup_deleteKey {α : Type} (c : CacheStore α) (k : String) :
    List.lookup k (CacheManager.deleteKey c k) = none := by
  induction c with
  | nil => rfl
  | cons p rest ih =>
    obtain ⟨a, b⟩ := p
    by_cases h : a = k
    · simpa [CacheManager.deleteKey, List.filter_cons, h] using ih
    · have hk : (k == a) = false := by
        rw [beq_eq_false_iff_ne]
        exact fun e => h e.symm
      have ha : (!(a == k)) = true := by simp [h]
      simp only [CacheManager.deleteKey, List.filter_cons, ha, if_true] at ih ⊢
      simp only [List.lookup, hk]
      exact ih

/-- C4: set followed by get before the expiration instant returns the
stored value; once the current time strictly exceeds the stored
`expiresAt`, get returns `none` and evicts the entry, and a subsequent
`getStatus` on the updated store reports `isCached = false`. -/
theorem cache_ttl_roundtrip {α : Type} (c : CacheStore α) (k : String) (v : α)
    (ttl : Option Nat) (t0 t1 t2 : Nat)
    (h1 : t1 ≤ t0 + CacheManager.ttlOrDefault ttl)
    (h2 : t0 + CacheManager.ttlOrDefault ttl < t2) :
    (CacheManager.get (CacheManager.set c k v ttl t0) k t1).1 = some v ∧
    (CacheManager.get (CacheManager.set c k v ttl t0) k t2).1 = none ∧
    List.lookup k (CacheManager.get (CacheManager.set c k v ttl t0) k t2).2 = none ∧
    (CacheManager.getStatus
      (CacheManager.get (CacheManager.set c k v ttl t0) k t2).2 k t2).1.isCached
      = false := by
  have hlk : List.lookup k (CacheManager.set c k v ttl t0)
      = some (CacheEntry.mk v t0 (t0 + CacheManager.ttlOrDefault ttl)) := by
    unfold CacheManager.set
    rw [List.lookup_cons]
    simp
  refine ⟨?_, ?_, ?_, ?_⟩
  · unfold CacheManager.get
    rw [hlk]
    simp only
    rw [if_neg (by omega)]
  · unfold CacheManager.get
    rw [hlk]
    simp only
    rw [if_pos (by omega)]
  · unfold CacheManager.get
    rw [hlk]
    simp only
    rw [if_pos (by omega)]
    exact lookup_deleteKey _ _
  · unfold CacheManager.getStatus
    have hnone : List.lookup k (CacheManager.get (CacheManager.set c k v ttl t0) k t2).2
        = none := by
      unfold CacheManager.get
      rw [hlk]
      simp only
      rw [if_pos (by omega)]
      exact lookup_deleteKey _ _
    rw [hnone]

/-- Witness for C4 at a concrete instance: key `"k"`, value `42`,
default TTL (one hour), set at time 0, read at times 0 and 3600001. -/
theorem cache_ttl_roundtrip_witness :
    (CacheManager.get (CacheManager.set ([] : CacheStore Nat) "k" 42 none 0) "k" 0).1
      = some 42 ∧
    (CacheManager.get (CacheManager.set ([] : CacheStore Nat) "k" 42 none 0) "k" 3600001).1
      = none ∧
    List.lookup "k"
      (CacheManager.get (CacheManager.set ([] : CacheStore Nat) "k" 42 none 0) "k" 3600001).2
      = none ∧
    (CacheManager.getStatus
      (CacheManager.get (CacheManager.set ([] : CacheStore Nat) "k" 42 none 0) "k" 3600001).2
      "k" 3600001).1.isCached = false :=
  cache_ttl_roundtrip [] "k" 42 none 0 0 3600001 (by decide) (by decide)

/-- C10: an explicit TTL of zero is falsy, so `set(k, v, 0)` stores the
entry with the default one-hour expiration and an immediate `get(k)`
returns the value rather than treating the entry as expired. -/
theorem cache_set_ttl_zero {α : Type} (c : CacheStore α) (k : String) (v : α)
    (t : Nat) :
    List.lookup k (CacheManager.set c k v (some 0) t)
      = some (CacheEntry.mk v t (t + CacheManager.defaultTTL)) ∧
    (CacheManager.get (CacheManager.set c k v (some 0) t) k t).1 = some v := by
  have hlk : List.lookup k (CacheManager.set c k v (some 0) t)
      = some (CacheEntry.mk v t (t + CacheManager.defaultTTL)) := by
    unfold CacheManager.set
    rw [List.lookup_cons]
    simp [CacheManager.ttlOrDefault]
  refine ⟨hlk, ?_⟩
  unfold CacheManager.get
  rw [hlk]
  simp only
  rw [if_neg (by omega)]

-- A lookup hit with a non-empty value makes the normalizer return the
-- canonical name.
theorem lookup_hit_normalize (map : List (String × String)) (s key val : String)
    (hkey : jsToLower (jsTrim s) = key)
    (hlk : List.lookup key map = some val) (hval : val ≠ "") :
    jsOrString (List.lookup (jsToLower (jsTrim s)) map) s = val := by
  rw [hkey, hlk]
  simp [jsOrString, hval]

-- A lookup miss makes the normalizer return its input unchanged.
theorem lookup_miss_normalize (map : List (String × String)) (s : String)
    (h : List.lookup (jsToLower (jsTrim s)) map = none) :
    jsOrString (List.lookup (jsToLower (jsTrim s)) map) s = s := by
  rw [h]
  rfl

/-- C5 counterexample: the src/lib/scraper.ts copy of `normalizeSpecies`
has no tiger entries, so "tiger" is returned unchanged instead of being
canonicalized to "Tiger Trout" as the claim states. -/
theorem normalizeSpecies_tiger_cex :
    Scraper.normalizeSpecies "tiger" = "tiger" ∧
    Scraper.normalizeSpecies "tiger" ≠ "Tiger Trout" := by
  decide

/-- C5 (amended): both normalizer copies lower-case and trim their
input and map rainbow/brown/brook/golden variants (bare word or "word
trout", any letter case) to the canonical capitalized names; the
edge-function copy also maps tiger variants to "Tiger Trout", while the
src/lib/scraper.ts copy returns tiger variants unchanged; unmatched
input is returned unchanged with original case, and both copies are
idempotent on the canonical names. -/
theorem normalizeSpecies_canonicalization (s : String) :
    (jsToLower (jsTrim s) = "rainbow" ∨ jsToLower (jsTrim s) = "rainbow trout" →
      EdgeSync.normalizeSpecies s = "Rainbow Trout" ∧
      Scraper.normalizeSpecies s = "Rainbow Trout") ∧
    (jsToLower (jsTrim s) = "brown" ∨ jsToLower (jsTrim s) = "brown trout" →
      EdgeSync.normalizeSpecies s = "Brown Trout" ∧
      Scraper.normalizeSpecies s = "Brown Trout") ∧
    (jsToLower (jsTrim s) = "brook" ∨ jsToLower (jsTrim s) = "brook trout" →
      EdgeSync.normalizeSpecies s = "Brook Trout" ∧
      Scraper.normalizeSpecies s = "Brook Trout") ∧
    (jsToLower (jsTrim s) = "golden" ∨ jsToLower (jsTrim s) = "golden trout" →
      EdgeSync.normalizeSpecies s = "Golden Trout" ∧
      Scraper.normalizeSpecies s = "Golden Trout") ∧
    (jsToLower (jsTrim s) = "tiger" ∨ jsToLower (jsTrim s) = "tiger trout" →
      EdgeSync.normalizeSpecies s = "Tiger Trout" ∧
      Scraper.normalizeSpecies s = s) ∧
    (List.lookup (jsToLower (jsTrim s)) EdgeSync.speciesMap = none →
      EdgeSync.normalizeSpecies s = s) ∧
    (List.lookup (jsToLower (jsTrim s)) Scraper.speciesMap = none →
      Scraper.normalizeSpecies s = s) ∧
    (∀ c ∈ ["Rainbow Trout", "Brown Trout", "Brook Trout", "Golden Trout", "Tiger Trout"],
      EdgeSync.normalizeSpecies c = c ∧ Scraper.normalizeSpecies c = c) := by
  refine ⟨?_, ?_, ?_, ?_, ?_, ?_, ?_, by decide⟩
  · rintro (h | h) <;>
      exact ⟨lookup_hit_normalize EdgeSync.speciesMap s _ _ h (by decide) (by decide),
        lookup_hit_normalize Scraper.speciesMap s _ _ h (by decide) (by decide)⟩
  · rintro (h | h) <;>
      exact ⟨lookup_hit_normalize EdgeSync.speciesMap s _ _ h (by decide) (by decide),
        lookup_hit_normalize Scraper.speciesMap s _ _ h (by decide) (by decide)⟩
  · rintro (h | h) <;>
      exact ⟨lookup_hit_normalize EdgeSync.speciesMap s _ _ h (by decide) (by decide),
        lookup_hit_normalize Scraper.speciesMap s _ _ h (by decide) (by decide)⟩
  · rintro (h | h) <;>
      exact ⟨lookup_hit_normalize EdgeSync.speciesMap s _ _ h (by decide) (by decide),
        lookup_hit_normalize Scraper.speciesMap s _ _ h (by decide) (by decide)⟩
  · rintro (h | h) <;>
      exact ⟨lookup_hit_normalize EdgeSync.speciesMap s _ _ h (by decide) (by decide),
        lookup_miss_normalize Scraper.speciesMap s (by rw [h]; decide)⟩
  · intro h
    exact lookup_miss_normalize EdgeSync.speciesMap s h
  · intro h
    exact lookup_miss_normalize Scraper.speciesMap s h

/-- Witness for C5: concrete hits, the tiger divergence between the two
copies, and an unmatched pass-through. -/
theorem normalizeSpecies_canonicalization_witness :
    EdgeSync.normalizeSpecies " RAINBOW TROUT " = "Rainbow Trout" ∧
    Scraper.normalizeSpecies "Brown" = "Brown Trout" ∧
    EdgeSync.normalizeSpecies "TIGER" = "Tiger Trout" ∧
    Scraper.normalizeSpecies "TIGER" = "TIGER" ∧
    Scraper.normalizeSpecies "muskie" = "muskie" :=
  ⟨((normalizeSpecies_canonicalization " RAINBOW TROUT ").1 (Or.inr (by decide))).1,
   ((normalizeSpecies_canonicalization "Brown").2.1 (Or.inl (by decide))).2,
   ((normalizeSpecies_canonicalization "TIGER").2.2.2.2.1 (Or.inl (by decide))).1,
   ((normalizeSpecies_canonicalization "TIGER").2.2.2.2.1 (Or.inl (by decide))).2,
   (normalizeSpecies_canonicalization "muskie").2.2.2.2.2.2.1 (by decide)⟩

/-- C6 counterexample: `parseSpeciesString("Unknown")` is not the empty
list — the no-delimiter branch finds no known species and falls back to
normalizing the whole string, yielding `["Unknown"]`. -/
theorem parseSpeciesString_unknown_cex :
    EdgeSync.parseSpeciesString "Unknown" = ["Unknown"] ∧
    EdgeSync.parseSpeciesString "Unknown" ≠ [] := by
  decide

/-- C6 (amended): "Rainbow/Brown" splits on the delimiter, normalizes
and dedupes to ["Rainbow Trout", "Brown Trout"]; the delimiter-free
concatenation "Rainbow Trout Brown Trout" is resolved by substring
extraction to the same list; "" maps to [] while "Unknown" maps to
["Unknown"] (whole-string fallback normalization); both display as
"Unknown" only in the empty case — and ["Unknown"] also displays as
"Unknown" via the join. -/
theorem parseSpeciesString_cases :
    EdgeSync.parseSpeciesString "Rainbow/Brown" = ["Rainbow Trout", "Brown Trout"] ∧
    EdgeSync.parseSpeciesString "Rainbow Trout Brown Trout"
      = ["Rainbow Trout", "Brown Trout"] ∧
    EdgeSync.parseSpeciesString "" = [] ∧
    EdgeSync.parseSpeciesString "Unknown" = ["Unknown"] ∧
    EdgeSync.speciesDisplay (EdgeSync.parseSpeciesString "") = "Unknown" ∧
    EdgeSync.speciesDisplay (EdgeSync.parseSpeciesString "Unknown") = "Unknown" := by
  decide

-- takeWhile only keeps elements satisfying the predicate.
theorem all_takeWhile (p : Char → Bool) (l : List Char) :
    (l.takeWhile p).all p = true := by
  induction l with
  | nil => rfl
  | cons c rest ih =>
    by_cases hc : p c = true
    · simp [List.takeWhile_cons, hc, ih]
    · simp [List.takeWhile_cons, hc]

-- Every character of the matched run is in the `[\d,]` class.
theorem firstNumRun_all (l run : List Char)
    (h : Scraper.firstNumRun l = some run) : run.all Scraper.numClass = true := by
  induction l with
  | nil => simp [Scraper.firstNumRun] at h
  | cons c rest ih =>
    by_cases hc : Scraper.numClass c = true
    · rw [Scraper.firstNumRun, if_pos hc] at h
      cases h
      simp [hc, all_takeWhile]
    · rw [Scraper.firstNumRun, if_neg hc] at h
      exact ih h

-- The regex finds no match exactly when no character of the input is a
-- digit or comma.
theorem firstNumRun_none_iff (l : List Char) :
    Scraper.firstNumRun l = none ↔ l.all (fun c => !Scraper.numClass c) = true := by
  induction l with
  | nil => simp [Scraper.firstNumRun]
  | cons c rest ih =>
    by_cases hc : Scraper.numClass c = true
    · simp [Scraper.firstNumRun, hc]
    · simp only [Bool.not_eq_true] at hc
      simp [Scraper.firstNumRun, hc, ih]

-- Stripping commas from an all-class run leaves the empty list exactly
-- when the run holds no digit.
theorem filter_noncomma_empty_iff (run : List Char)
    (hall : run.all Scraper.numClass = true) :
    ((run.filter fun c => !(c == ',')).isEmpty = true) ↔
      run.any Char.isDigit = false := by
  induction run with
  | nil => simp
  | cons c rest ih =>
    simp only [List.all_cons, Bool.and_eq_true] at hall
    obtain ⟨hc, hrest⟩ := hall
    by_cases hcomma : c = ','
    · subst hcomma
      simp [List.filter_cons, ih hrest]
    · have hdig : c.isDigit = true := by
        rcases Bool.or_eq_true_iff.mp hc with h | h
        · exact h
        · exact absurd (by simpa using h) hcomma
      have hne : (c == ',') = false := by simp [hcomma]
      simp [List.filter_cons, hne, hdig]

/-- C7 counterexample: an input whose first `[\d,]+` run is all commas —
the claim says extractNumber is absent whenever the string holds no
digit run, but the code matches ",,", strips the commas and returns
parseInt of the empty string, i.e. NaN, a present non-integer result. -/
theorem extractNumber_comma_cex :
    Scraper.extractNumber ",," = some none ∧ Scraper.extractNumber ",," ≠ none := by
  decide

/-- C7 (amended): extractNumber returns absent exactly when the string
holds no digit-or-comma character at all; when the first `[\d,]+` run
holds at least one digit, the result is the non-negative integer
obtained by stripping commas and parsing base 10; when the first run is
all commas, the result is present but is NaN (parseInt of the empty
string).  Concretely, "1,250 lbs" yields 1250 and "no data" yields
absent. -/
theorem extractNumber_characterization (s : String) :
    (Scraper.extractNumber s = none ↔
      s.toList.all (fun c => !Scraper.numClass c) = true) ∧
    (∀ run : List Char, Scraper.firstNumRun s.toList = some run →
      (run.any Char.isDigit = true →
        Scraper.extractNumber s
          = some (some (digitsToNat (run.filter fun c => !(c == ','))))) ∧
      (run.any Char.isDigit = false → Scraper.extractNumber s = some none)) ∧
    Scraper.extractNumber "1,250 lbs" = some (some 1250) ∧
    Scraper.extractNumber "no data" = none := by
  refine ⟨?_, ?_, by decide, by decide⟩
  · constructor
    · intro hnone
      unfold Scraper.extractNumber at hnone
      cases h : Scraper.firstNumRun s.toList with
      | none => exact (firstNumRun_none_iff s.toList).mp h
      | some run =>
        rw [h] at hnone
        dsimp only at hnone
        by_cases hemp : ((run.filter fun c => !(c == ',')).isEmpty = true)
        · rw [if_pos hemp] at hnone
          cases hnone
        · rw [if_neg hemp] at hnone
          cases hnone
    · intro hall
      unfold Scraper.extractNumber
      rw [(firstNumRun_none_iff s.toList).mpr hall]
  · intro run h
    have hall := firstNumRun_all s.toList run h
    constructor
    · intro hdig
      have hne : ¬ ((run.filter fun c => !(c == ',')).isEmpty = true) := by
        intro hemp
        have hfalse := (filter_noncomma_empty_iff run hall).mp hemp
        simp [hdig] at hfalse
      unfold Scraper.extractNumber
      rw [h]
      dsimp only
      rw [if_neg hne]
    · intro hnodig
      unfold Scraper.extractNumber
      rw [h]
      dsimp only
      rw [if_pos ((filter_noncomma_empty_iff run hall).mpr hnodig)]

/-- Witness for C7: the two digit-bearing runs evaluated through the
characterization at concrete inputs. -/
theorem extractNumber_characterization_witness :
    Scraper.extractNumber "1,250 lbs" = some (some 1250) ∧
    Scraper.extractNumber ",5," = some (some 5) := by
  constructor
  · have h := ((extractNumber_characterization "1,250 lbs").2.1
      ['1', ',', '2', '5', '0'] (by decide)).1 (by decide)
    rw [h]
    decide
  · have h := ((extractNumber_characterization ",5,").2.1
      [',', '5', ','] (by decide)).1 (by decide)
    rw [h]
    decide

/-- C3 counterexample: with the date-ranged request failing and a plain
GET that would succeed, the edge-function date-ranged orchestrator
signals failure having issued only the dated request — no fallback
plain GET is attempted, contrary to the claim. -/
theorem edge_no_fallback_cex :
    EdgeSync.fetchHtml (Net.mk none (some "<html></html>"))
      = ([FetchReq.dated], none) := by
  decide

/-- C3 (amended): the ScheduleTab orchestrator issues exactly one
fallback plain GET when (and only when) the date-ranged request fails,
and signals failure only when that fallback also fails; the
edge-function date-ranged orchestrator never issues a fallback — it
propagates a date-ranged failure immediately. -/
theorem fetch_fallback_behavior (net : Net) :
    ((ScheduleTab.fetchHtml net).2.isSome
      = (net.datedResult.isSome || net.plainResult.isSome)) ∧
    (net.datedResult = none →
      (ScheduleTab.fetchHtml net).1 = [FetchReq.dated, FetchReq.plain] ∧
      (ScheduleTab.fetchHtml net).2 = net.plainResult) ∧
    (net.datedResult ≠ none → (ScheduleTab.fetchHtml net).1 = [FetchReq.dated]) ∧
    (EdgeSync.fetchHtml net).1 = [FetchReq.dated] ∧
    (EdgeSync.fetchHtml net).2 = net.datedResult := by
  obtain ⟨d, p⟩ := net
  cases d <;> cases p <;>
    simp [ScheduleTab.fetchHtml, ScheduleTab.fetchStockingDataWithDateRange,
      EdgeSync.fetchHtml]

/-- Witness for C3 at concrete network outcomes: dated failure with
plain success, and dated success. -/
theorem fetch_fallback_behavior_witness :
    ((ScheduleTab.fetchHtml (Net.mk none (some "h"))).1
        = [FetchReq.dated, FetchReq.plain] ∧
      (ScheduleTab.fetchHtml (Net.mk none (some "h"))).2 = some "h") ∧
    (ScheduleTab.fetchHtml (Net.mk (some "h") none)).1 = [FetchReq.dated] :=
  ⟨(fetch_fallback_behavior (Net.mk none (some "h"))).2.1 rfl,
   (fetch_fallback_behavior (Net.mk (some "h") none)).2.2.1 (by decide)⟩


-- The structural lexicographic comparison is the lexicographic order
-- on character lists underlying Lean's String order.
theorem charListLt_iff (a b : List Char) :
    charListLt a b = true ↔ List.Lex (· < ·) a b := by
  induction a generalizing b with
  | nil =>
    cases b with
    | nil =>
      simp only [charListLt]
      constructor
      · intro h
        cases h
      · intro h
        cases h
    | cons c cs =>
      simp only [charListLt]
      constructor
      · intro _
        exact List.Lex.nil
      · intro _
        trivial
  | cons x xs ih =>
    cases b with
    | nil =>
      simp only [charListLt]
      constructor
      · intro h
        cases h
      · intro h
        cases h
    | cons y ys =>
      simp only [charListLt]
      by_cases hxy : x < y
      · simp only [if_pos hxy]
        constructor
        · intro _
          exact List.Lex.rel hxy
        · intro _
          trivial
      · by_cases hyx : y < x
        · simp only [if_neg hxy, if_pos hyx]
          constructor
          · intro h
            cases h
          · intro h
            cases h with
            | cons h1 => exact absurd hyx (lt_irrefl x)
            | rel h1 => exact absurd h1 hxy
        · have hxy2 : x = y := le_antisymm (not_lt.mp hyx) (not_lt.mp hxy)
          subst hxy2
          simp only [if_neg hxy, if_neg hyx]
          rw [ih ys]
          constructor
          · intro h
            exact List.Lex.cons h
          · intro h
            cases h with
            | cons h1 => exact h1
            | rel h1 => exact absurd h1 hxy

-- `jsStrLt` is the strict lexicographic order on strings.
theorem jsStrLt_iff (a b : String) : jsStrLt a b = true ↔ a < b := by
  rw [String.lt_iff_toList_lt]
  exact charListLt_iff a.toList b.toList

-- `jsStrLe` is the inclusive lexicographic order on strings.
theorem jsStrLe_iff (a b : String) : jsStrLe a b = true ↔ a ≤ b := by
  unfold jsStrLe
  constructor
  · intro h
    refine not_lt.mp fun hlt => ?_
    rw [(jsStrLt_iff b a).mpr hlt] at h
    cases h
  · intro h
    have hx : jsStrLt b a = false := by
      cases hx : jsStrLt b a
      · rfl
      · exact absurd ((jsStrLt_iff b a).mp hx) (not_lt.mpr h)
    rw [hx]
    rfl

-- The two truthiness-guarded bound checks of `filterEventsByDateRange`
-- agree with the spec's inclusive-range predicate whenever each given
-- bound is a non-empty string.
theorem filterPred_eq_specInRange (startDate endDate : Option String)
    (hs : startDate ≠ some "") (he : endDate ≠ some "")
    (ev : Scraper.StockingEvent) :
    (if jsTruthy startDate && jsStrLt ev.date (startDate.getD "") then false
     else if jsTruthy endDate && jsStrLt (endDate.getD "") ev.date then false
     else true) = Scraper.specInRange startDate endDate ev := by
  unfold Scraper.specInRange
  cases startDate with
  | none =>
    cases endDate with
    | none => rfl
    | some ed =>
      have hed : ed ≠ "" := by
        intro hh
        exact he (by rw [hh])
      by_cases hb : jsStrLt ed ev.date = true
      · simp [jsTruthy, hed, hb, jsStrLe]
      · rw [Bool.not_eq_true] at hb
        simp [jsTruthy, hed, hb, jsStrLe]
  | some sd =>
    have hsd : sd ≠ "" := by
      intro hh
      exact hs (by rw [hh])
    cases endDate with
    | none =>
      by_cases hb : jsStrLt ev.date sd = true
      · simp [jsTruthy, hsd, hb, jsStrLe]
      · rw [Bool.not_eq_true] at hb
        simp [jsTruthy, hsd, hb, jsStrLe]
    | some ed =>
      have hed : ed ≠ "" := by
        intro hh
        exact he (by rw [hh])
      by_cases hb : jsStrLt ev.date sd = true
      · by_cases hc : jsStrLt ed ev.date = true
        · simp [jsTruthy, hsd, hed, hb, hc, jsStrLe]
        · rw [Bool.not_eq_true] at hc
          simp [jsTruthy, hsd, hed, hb, hc, jsStrLe]
      · rw [Bool.not_eq_true] at hb
        by_cases hc : jsStrLt ed ev.date = true
        · simp [jsTruthy, hsd, hed, hb, hc, jsStrLe]
        · rw [Bool.not_eq_true] at hc
          simp [jsTruthy, hsd, hed, hb, hc, jsStrLe]

/-- C8: `filterEventsByDateRange` is pure and, for ISO-date (hence
non-empty) bounds, keeps exactly the events whose date is lexically at
or after the start bound (when given) and at or before the end bound
(when given) — both bounds inclusive; the result is a subsequence of
the input (order preserved), and with both bounds omitted the input is
returned whole. -/
theorem filterEventsByDateRange_spec (events : List Scraper.StockingEvent)
    (startDate endDate : Option String)
    (hs : startDate ≠ some "") (he : endDate ≠ some "") :
    Scraper.filterEventsByDateRange events startDate endDate
      = events.filter (Scraper.specInRange startDate endDate) ∧
    (∀ ev : Scraper.StockingEvent,
      Scraper.specInRange startDate endDate ev = true ↔
        ((∀ sd, startDate = some sd → sd ≤ ev.date) ∧
         (∀ ed, endDate = some ed → ev.date ≤ ed))) ∧
    (Scraper.filterEventsByDateRange events startDate endDate).Sublist events ∧
    Scraper.filterEventsByDateRange events none none = events := by
  refine ⟨?_, ?_, ?_, ?_⟩
  · unfold Scraper.filterEventsByDateRange
    exact List.filter_congr fun ev _ =>
      filterPred_eq_specInRange startDate endDate hs he ev
  · intro ev
    unfold Scraper.specInRange
    cases startDate with
    | none =>
      cases endDate with
      | none => simp
      | some ed => simp [jsStrLe_iff]
    | some sd =>
      cases endDate with
      | none => simp [jsStrLe_iff]
      | some ed => simp [jsStrLe_iff]
  · unfold Scraper.filterEventsByDateRange
    exact List.filter_sublist events
  · unfold Scraper.filterEventsByDateRange
    simp [jsTruthy]

/-- Witness for C8: a two-event list filtered through concrete inclusive
bounds keeps exactly the in-range event. -/
theorem filterEventsByDateRange_spec_witness :
    Scraper.filterEventsByDateRange
      [Scraper.StockingEvent.mk "a" "W" (some "C") "S" "2024-01-15" none none,
       Scraper.StockingEvent.mk "b" "W" (some "C") "S" "2024-04-10" none none]
      (some "2024-03-01") (some "2024-12-31")
      = [Scraper.StockingEvent.mk "b" "W" (some "C") "S" "2024-04-10" none none] := by
  have h := (filterEventsByDateRange_spec
    [Scraper.StockingEvent.mk "a" "W" (some "C") "S" "2024-01-15" none none,
     Scraper.StockingEvent.mk "b" "W" (some "C") "S" "2024-04-10" none none]
    (some "2024-03-01") (some "2024-12-31") (by decide) (by decide)).1
  rw [h]
  decide

-- An emitted event always carries the non-empty trimmed water-body
-- cell and a date produced by a successful parse.
theorem buildEvent_some (pd : String → Option String) (ix : Scraper.ColumnIndices)
    (i : Nat) (cells : List String) (e : Scraper.StockingEvent)
    (h : Scraper.buildEvent pd ix i cells = some e) :
    e.waterBody ≠ "" ∧ ∃ ds : String, pd ds = some e.date := by
  unfold Scraper.buildEvent at h
  by_cases hc : cells.isEmpty = true
  · rw [if_pos hc] at h
    exact Option.noConfusion h
  · rw [if_neg hc] at h
    cases hd : (cells.get? ix.date).map jsTrim with
    | none =>
      rw [hd] at h
      exact Option.noConfusion h
    | some dateStr =>
      cases hw : (cells.get? ix.waterBody).map jsTrim with
      | none =>
        rw [hd, hw] at h
        exact Option.noConfusion h
      | some waterBody =>
        rw [hd, hw] at h
        dsimp only at h
        by_cases hne : dateStr = "" ∨ waterBody = ""
        · rw [if_pos hne] at h
          exact Option.noConfusion h
        · rw [if_neg hne] at h
          cases hpd : pd dateStr with
          | none =>
            rw [hpd] at h
            exact Option.noConfusion h
          | some date =>
            rw [hpd] at h
            dsimp only at h
            have he := Option.some.inj h
            subst he
            refine ⟨fun hwb => hne (Or.inr hwb), ⟨dateStr, ?_⟩⟩
            exact hpd

-- A bad row (missing or empty date/water-body cell, or failed date
-- parse) never produces an event.
theorem buildEvent_bad (pd : String → Option String) (ix : Scraper.ColumnIndices)
    (i : Nat) (cells : List String)
    (hbad : Scraper.isBadRow pd ix cells = true) :
    Scraper.buildEvent pd ix i cells = none := by
  unfold Scraper.buildEvent
  by_cases hc : cells.isEmpty = true
  · rw [if_pos hc]
  · rw [if_neg hc]
    cases hd : (cells.get? ix.date).map jsTrim with
    | none => rfl
    | some dateStr =>
      cases hw : (cells.get? ix.waterBody).map jsTrim with
      | none => rfl
      | some waterBody =>
        dsimp only
        unfold Scraper.isBadRow at hbad
        rw [hd, hw] at hbad
        dsimp only at hbad
        by_cases hne : dateStr = "" ∨ waterBody = ""
        · rw [if_pos hne]
        · rw [if_neg hne] at hbad ⊢
          rw [Option.isNone_iff_eq_none.mp hbad]

-- Splitting the data rows around a bad row: the bad row contributes
-- nothing and the remaining rows are processed with their original
-- ordinals.
theorem processRows_append_bad (pd : String → Option String)
    (ix : Scraper.ColumnIndices) (bad : List String)
    (hbad : Scraper.isBadRow pd ix bad = true) :
    ∀ (pre : List (List String)) (i : Nat) (suf : List (List String)),
    Scraper.processRows pd ix i (pre ++ bad :: suf)
      = Scraper.processRows pd ix i pre
        ++ Scraper.processRows pd ix (i + pre.length + 1) suf := by
  intro pre
  induction pre with
  | nil =>
    intro i suf
    simp only [List.nil_append, List.length_nil, Nat.add_zero]
    simp only [Scraper.processRows]
    rw [buildEvent_bad pd ix i bad hbad]
    rfl
  | cons a pre ih =>
    intro i suf
    simp only [List.cons_append, List.length_cons]
    simp only [Scraper.processRows]
    have harith : i + 1 + pre.length + 1 = i + (pre.length + 1) + 1 := by omega
    cases hb : Scraper.buildEvent pd ix i a with
    | some e =>
      rw [ih (i + 1) suf, harith]
      rfl
    | none =>
      rw [ih (i + 1) suf, harith]

-- Every member of the data-row loop output is a built event.
theorem mem_processRows (pd : String → Option String) (ix : Scraper.ColumnIndices)
    (e : Scraper.StockingEvent) :
    ∀ (rows : List (List String)) (i : Nat),
    e ∈ Scraper.processRows pd ix i rows →
    ∃ (j : Nat) (cells : List String), Scraper.buildEvent pd ix j cells = some e := by
  intro rows
  induction rows with
  | nil =>
    intro i h
    simp [Scraper.processRows] at h
  | cons cells rest ih =>
    intro i h
    rw [Scraper.processRows] at h
    cases hb : Scraper.buildEvent pd ix i cells with
    | some ev =>
      rw [hb] at h
      dsimp only at h
      rcases List.mem_cons.mp h with h1 | h1
      · subst h1
        exact ⟨i, cells, hb⟩
      · exact ih (i + 1) h1
    | none =>
      rw [hb] at h
      dsimp only at h
      exact ih (i + 1) h

-- Every member of a table's event list is a built event.
theorem mem_tableEvents (pd : String → Option String) (t : Scraper.HtmlTable)
    (e : Scraper.StockingEvent) (h : e ∈ Scraper.tableEvents pd t) :
    ∃ (ix : Scraper.ColumnIndices) (j : Nat) (cells : List String),
      Scraper.buildEvent pd ix j cells = some e := by
  unfold Scraper.tableEvents at h
  cases hr : t.rows with
  | nil =>
    rw [hr] at h
    simp at h
  | cons headerRow dataRows =>
    rw [hr] at h
    dsimp only at h
    by_cases hh : headerRow.isEmpty = true
    · rw [if_pos hh] at h
      simp at h
    · rw [if_neg hh] at h
      cases hdi : (headerRow.map fun s => jsToLower (jsTrim s)).findIdx? Scraper.isDateHeader with
      | none =>
        rw [hdi] at h
        simp at h
      | some di =>
        cases hwi : (headerRow.map fun s => jsToLower (jsTrim s)).findIdx? Scraper.isWaterHeader with
        | none =>
          rw [hdi, hwi] at h
          simp at h
        | some wi =>
          rw [hdi, hwi] at h
          dsimp only at h
          obtain ⟨j, cells, hb⟩ := mem_processRows pd _ e dataRows 1 h
          exact ⟨_, j, cells, hb⟩

-- Every member of the table loop's output comes from the accumulator
-- or from one of the tables.
theorem mem_scrapeGo (pd : String → Option String) (e : Scraper.StockingEvent) :
    ∀ (tables : List Scraper.HtmlTable) (acc : List Scraper.StockingEvent),
    e ∈ Scraper.scrapeGo pd acc tables →
    e ∈ acc ∨ ∃ t ∈ tables, e ∈ Scraper.tableEvents pd t := by
  intro tables
  induction tables with
  | nil =>
    intro acc h
    rw [Scraper.scrapeGo] at h
    exact Or.inl h
  | cons t rest ih =>
    intro acc h
    rw [Scraper.scrapeGo] at h
    by_cases hE : ((acc ++ Scraper.tableEvents pd t).isEmpty = true)
    · rw [if_pos hE] at h
      rcases ih _ h with h1 | ⟨u, hu, he2⟩
      · rcases List.mem_append.mp h1 with h2 | h2
        · exact Or.inl h2
        · exact Or.inr ⟨t, List.mem_cons_self t rest, h2⟩
      · exact Or.inr ⟨u, List.mem_cons_of_mem t hu, he2⟩
    · rw [if_neg hE] at h
      rcases List.mem_append.mp h with h2 | h2
      · exact Or.inl h2
      · exact Or.inr ⟨t, List.mem_cons_self t rest, h2⟩

-- With an empty accumulator, the loop returns the events of the first
-- table that yields any, ignoring everything after it.
theorem scrapeGo_first (pd : String → Option String) (t : Scraper.HtmlTable)
    (suf : List Scraper.HtmlTable) (ht : Scraper.tableEvents pd t ≠ []) :
    ∀ pre : List Scraper.HtmlTable,
    (∀ u ∈ pre, Scraper.tableEvents pd u = []) →
    Scraper.scrapeGo pd [] (pre ++ t :: suf) = Scraper.tableEvents pd t := by
  intro pre
  induction pre with
  | nil =>
    intro _
    rw [List.nil_append, Scraper.scrapeGo]
    rw [List.nil_append]
    have hE : (Scraper.tableEvents pd t).isEmpty = false := by
      cases hx : Scraper.tableEvents pd t with
      | nil => exact absurd hx ht
      | cons a l => rfl
    rw [hE]
    rfl
  | cons u pre ih =>
    intro hall
    have hu : Scraper.tableEvents pd u = [] := hall u (List.mem_cons_self u pre)
    rw [List.cons_append, Scraper.scrapeGo]
    rw [hu, List.append_nil]
    exact ih fun v hv => hall v (List.mem_cons_of_mem u hv)

-- When every table yields nothing, the loop returns the accumulator [].
theorem scrapeGo_all_empty (pd : String → Option String) :
    ∀ tables : List Scraper.HtmlTable,
    (∀ u ∈ tables, Scraper.tableEvents pd u = []) →
    Scraper.scrapeGo pd [] tables = [] := by
  intro tables
  induction tables with
  | nil =>
    intro _
    rfl
  | cons u rest ih =>
    intro hall
    have hu : Scraper.tableEvents pd u = [] := hall u (List.mem_cons_self u rest)
    rw [Scraper.scrapeGo]
    rw [hu, List.append_nil]
    exact ih fun v hv => hall v (List.mem_cons_of_mem u hv)

/-- C1: for every parsed document and date-parse oracle, every event
emitted by scrapeStockingData has a non-empty (trimmed) waterBody and a
date that is the output of a successful date parse; and a row whose
mapped date or waterBody cell is missing or empty, or whose date fails
to parse, contributes no event while the rows around it are still
processed at their original ordinals. -/
theorem scrape_event_invariant (pd : String → Option String) :
    (∀ (tables : List Scraper.HtmlTable) (e : Scraper.StockingEvent),
      e ∈ Scraper.scrapeStockingData pd tables →
      e.waterBody ≠ "" ∧ ∃ ds : String, pd ds = some e.date) ∧
    (∀ (ix : Scraper.ColumnIndices) (i : Nat) (pre : List (List String))
      (bad : List String) (suf : List (List String)),
      Scraper.isBadRow pd ix bad = true →
      Scraper.processRows pd ix i (pre ++ bad :: suf)
        = Scraper.processRows pd ix i pre
          ++ Scraper.processRows pd ix (i + pre.length + 1) suf) := by
  constructor
  · intro tables e he
    unfold Scraper.scrapeStockingData at he
    rcases mem_scrapeGo pd e tables [] he with h1 | ⟨t, _, h2⟩
    · simp at h1
    · obtain ⟨ix, j, cells, hb⟩ := mem_tableEvents pd t e h2
      exact buildEvent_some pd ix j cells e hb
  · intro ix i pre bad suf hbad
    exact processRows_append_bad pd ix bad hbad pre i suf

/-- Witness for C1: in the spec's end-to-end scenario the unparseable
middle row is skipped while the rows before and after it are emitted
with their original ordinals. -/
theorem scrape_event_invariant_witness :
    Scraper.isBadRow sampleParseDate
      (Scraper.ColumnIndices.mk 0 1 none none none none)
      ["not a date", "Jones Lake"] = true ∧
    Scraper.processRows sampleParseDate
      (Scraper.ColumnIndices.mk 0 1 none none none none) 1
      ([["June 1, 2024", "Smith Creek"]]
        ++ ["not a date", "Jones Lake"] :: [["June 1, 2024", "Back Creek"]])
      = Scraper.processRows sampleParseDate
          (Scraper.ColumnIndices.mk 0 1 none none none none) 1
          [["June 1, 2024", "Smith Creek"]]
        ++ Scraper.processRows sampleParseDate
            (Scraper.ColumnIndices.mk 0 1 none none none none) 3
            [["June 1, 2024", "Back Creek"]] :=
  ⟨by decide,
   (scrape_event_invariant sampleParseDate).2
     (Scraper.ColumnIndices.mk 0 1 none none none none) 1
     [["June 1, 2024", "Smith Creek"]] ["not a date", "Jones Lake"]
     [["June 1, 2024", "Back Creek"]] (by decide)⟩

/-- C2: the scraper examines tables in document order, stops at the
first candidate table that yields at least one parsed event and its
result is exactly that table's events, unaffected by any tables after
it; when no table yields any event the result is the empty list (a
normal value, not an error). -/
theorem scrape_first_table_policy (pd : String → Option String) :
    (∀ (pre : List Scraper.HtmlTable) (t : Scraper.HtmlTable)
      (suf : List Scraper.HtmlTable),
      (∀ u ∈ pre, Scraper.tableEvents pd u = []) →
      Scraper.tableEvents pd t ≠ [] →
      Scraper.scrapeStockingData pd (pre ++ t :: suf) = Scraper.tableEvents pd t) ∧
    (∀ tables : List Scraper.HtmlTable,
      (∀ u ∈ tables, Scraper.tableEvents pd u = []) →
      Scraper.scrapeStockingData pd tables = []) := by
  constructor
  · intro pre t suf hpre ht
    exact scrapeGo_first pd t suf ht pre hpre
  · intro tables hall
    exact scrapeGo_all_empty pd tables hall

/-- Witness for C2: a first table with no recognizable date column is
skipped and the second, fully-headed table supplies the whole result;
the trailing table is never consulted. -/
theorem scrape_first_table_policy_witness :
    Scraper.scrapeStockingData sampleParseDate
      ([Scraper.HtmlTable.mk [["Name", "County"], ["Smith Creek", "Bath"]]]
        ++ Scraper.HtmlTable.mk [["Date", "Water Body"], ["June 1, 2024", "Smith Creek"]]
          :: [Scraper.HtmlTable.mk [["Date", "Water Body"], ["June 1, 2024", "Other Lake"]]])
      = Scraper.tableEvents sampleParseDate
          (Scraper.HtmlTable.mk [["Date", "Water Body"], ["June 1, 2024", "Smith Creek"]]) :=
  (scrape_first_table_policy sampleParseDate).1
    [Scraper.HtmlTable.mk [["Name", "County"], ["Smith Creek", "Bath"]]]
    (Scraper.HtmlTable.mk [["Date", "Water Body"], ["June 1, 2024", "Smith Creek"]])
    [Scraper.HtmlTable.mk [["Date", "Water Body"], ["June 1, 2024", "Other Lake"]]]
    (by decide) (by decide)

/-- C9: at the failing input — a table whose county column resolves to
index 2 but whose data row has only two cells — the scraper emits the
event with `county` equal to JavaScript `undefined` (modelled `none`),
not a string, contradicting the claim and the declared
`county: string` of src/lib/types.ts. -/
theorem county_short_row_bug :
    (Scraper.scrapeStockingData sampleParseDate
      [Scraper.HtmlTable.mk
        [["Date", "Water Body", "County"], ["June 1, 2024", "Smith Creek"]]]).map
      Scraper.StockingEvent.county = [none] := by
  decide
